import Mathlib

/-!
Verification of the reinkpy Epson/IEEE-1284.4 core against its source.

Shallow embedding of `src/reinkpy/d4.py` and `src/reinkpy/epson.py`:
bytes are `List Nat` (each entry a byte value), machine integers are `Nat`
(or `Int` for the signed credit counters), Python exceptions are `none` /
`Except.error`, and the printer on the other end of the control channel is
an abstract oracle (`Printer`) threaded as explicit state.
-/

namespace Reink

/-! ## 1284.4 packet codec (`D4Link.protocol` in d4.py) -/

/-- The 6-byte big-endian packet header `psid ssid length credit control`
(the namedtuple `D4PacketHeader` built from `struct.Struct('>BBHBB')`). -/
structure D4PacketHeader where
  psid : Nat
  ssid : Nat
  length : Nat
  credit : Nat
  control : Nat
  deriving DecidableEq, Repr

/-- `payload_length = length - hLen` (hLen = 6).  The source computes this with
Python ints; all packets produced by `encode` have `length ≥ 6`, which is the
regime this `Nat` subtraction models. -/
def D4PacketHeader.payload_length (h : D4PacketHeader) : Nat := h.length - 6

namespace D4Link

/-- `D4Link.protocol.encode(payload, psid, ssid, credit, control)`:
`hStruct.pack(psid, ssid, hLen + len(payload), credit, control) + payload`.
`struct.pack('>BBHBB', ...)` raises `struct.error` when a field is out of
range (`B`: one byte, `H`: two bytes big-endian); that is the `none` case. -/
def protocol.encode (payload : List Nat) (psid ssid credit control : Nat) :
    Option (List Nat) :=
  if psid < 256 ∧ ssid < 256 ∧ credit < 256 ∧ control < 256 ∧
      6 + payload.length < 65536 then
    some ([psid, ssid, (6 + payload.length) / 256, (6 + payload.length) % 256,
           credit, control] ++ payload)
  else none

/-- `D4Link.protocol.decode(b)`: `(hTuple(*hStruct.unpack(b[:6])), b[6:])`.
`struct.unpack` raises `struct.error` unless it gets exactly 6 bytes, so a
buffer shorter than 6 bytes is the `none` case. -/
def protocol.decode (b : List Nat) : Option (D4PacketHeader × List Nat) :=
  match b with
  | p :: s :: lhi :: llo :: cr :: ct :: rest =>
      some (⟨p, s, lhi * 256 + llo, cr, ct⟩, rest)
  | _ => none

end D4Link

/-! ## Epson control codec (`Epson.encode` in epson.py) -/

/-- The `cmd` argument of `Epson.encode`: either a plain 2-byte ASCII command
string, or a `(outer_char, inner_char)` "factory command" tuple. -/
inductive EpsonCmd where
  | plain : List Nat → EpsonCmd
  | factory : Nat → Nat → EpsonCmd
  deriving DecidableEq, Repr

/-- `(c>>1 & 0x7f) | (c<<7 & 0x80)` from `Epson.encode`. -/
def rot1 (c : Nat) : Nat := ((c >>> 1) &&& 0x7f) ||| ((c <<< 7) &&& 0x80)

/-- `struct.pack('<H', n)`: two little-endian bytes.  Callers guard
`n < 65536`, under which `n / 256` is already a byte. -/
def u16le (n : Nat) : List Nat := [n % 256, n / 256]

/-- `Epson.encode(cmd, payload)`.  On the factory path `c = ord(cmd[1])`,
`p = struct.pack('<HBBB', rkey, c, ~c & 0xff, (c>>1 & 0x7f)|(c<<7 & 0x80))`,
`cmd, payload = cmd[0]*2, p + payload`; then
`cmd.encode('ascii') + struct.pack('<H', len(payload)) + payload`.
`~c & 0xff = 255 - c` for a byte `c`.  `none` models the exceptions raised by
`struct.pack` on out-of-range fields and by `.encode('ascii')` on non-ASCII. -/
def Epson.encode (rkey : Nat) (cmd : EpsonCmd) (payload : List Nat) :
    Option (List Nat) :=
  match cmd with
  | .factory o i =>
      if i < 256 ∧ rkey < 65536 ∧ o < 128 ∧ 5 + payload.length < 65536 then
        some ([o, o] ++ u16le (5 + payload.length) ++
              u16le rkey ++ [i, 255 - i, rot1 i] ++ payload)
      else none
  | .plain cs =>
      if cs.all (· < 128) ∧ payload.length < 65536 then
        some (cs ++ u16le payload.length ++ payload)
      else none

/-! ## Revision negotiation (`D4Link._send_init` in d4.py) -/

/-- Outcome of `D4Link._send_init`: `success` is `return True`, `failed` is the
implicit `return None` (unknown revision, or `0x02` echoing the same revision,
or an unknown result code), `raised` is a Python exception (result `0x01`/`0x0B`
raises `NotImplemented`; a missing reply makes the tuple unpacking raise). -/
inductive InitResult where
  | success
  | failed
  | raised
  deriving DecidableEq, Repr

/-- `D4Link._send_init(revision)`.  The device is modelled as the script
`replies` of `InitReply (result, revision)` pairs that `self.txn('Init', rev)`
returns, in order; `prot` is the transaction channel's current command-table
revision (`0x10` or `0x20`, `TXChannel.protocol`).  Returns the outcome, the
final command-table revision, and the list of revisions carried by the Init
commands actually sent. -/
def D4Link.send_init (replies : List (Nat × Nat)) (prot revision : Nat) :
    InitResult × Nat × List Nat :=
  match replies with
  | [] => (.raised, prot, [revision])
  | (res, rev) :: rest =>
      if res = 0x00 then (.success, prot, [revision])
      else if res = 0x01 ∨ res = 0x0B then (.raised, prot, [revision])
      else if res = 0x02 then
        if rev ≠ revision then
          if rev = 0x10 then
            let o := D4Link.send_init rest 0x10 rev
            (o.1, o.2.1, revision :: o.2.2)
          else if rev = 0x20 then
            let o := D4Link.send_init rest 0x20 rev
            (o.1, o.2.1, revision :: o.2.2)
          else (.failed, prot, [revision])
        else (.failed, prot, [revision])
      else (.failed, prot, [revision])

/-! ## Credit-checked sending (`D4Link.send` in d4.py) -/

/-- The `for retry in range(3)` loop of `D4Link.send`: before each of the three
rounds the channel's credit is checked against `cost`; when it is sufficient
the loop breaks, otherwise `self.txn('CreditRequest', ...)` runs, whose net
effect on the channel's credit (granted `addCredit` piggybacked through
`on_received`, possibly zero when no reply arrives) is the next entry of
`grants`.  Returns (loop broke, credit after the loop, requests issued). -/
def creditLoop : List Int → Int → Int → Bool × Int × Nat
  | [], credit, _ => (false, credit, 0)
  | g :: gs, credit, cost =>
      if cost ≤ credit then (true, credit, 0)
      else
        let t := creditLoop gs (credit + g) cost
        (t.1, t.2.1, t.2.2 + 1)

/-- Result of `D4Link.send`: the returned value (`none` is the bare `return`
of the credit-starved path), the channel's credit afterwards, the number of
`CreditRequest` commands issued, and the encoded packet written to the target
(`none` when nothing was written). -/
structure SendOut where
  result : Option Nat
  chCredit : Int
  nRequests : Nat
  sent : Option (List Nat)
  deriving DecidableEq, Repr

/-- `D4Link.send(payload, channel, credit, control, cost, check)`.  `wres` is
the value `self.target.write(b)` returns; `g1 g2 g3` are the per-round credit
effects of `CreditRequest` (see `creditLoop`); `credit0` the channel's credit
at entry; `pcredit`/`control` the header fields of the outgoing packet.  After
the check the code runs `channel.credit -= cost`, encodes and writes.  The
outer `none` models `struct.error` from `protocol.encode` propagating. -/
def D4Link.send (wres : Nat) (g1 g2 g3 : Int) (payload : List Nat)
    (psid ssid pcredit control : Nat) (credit0 cost : Int) (check : Bool) :
    Option SendOut :=
  if check then
    match creditLoop [g1, g2, g3] credit0 cost with
    | (false, c, n) => some ⟨none, c, n, none⟩
    | (true, c, n) =>
        match D4Link.protocol.encode payload psid ssid pcredit control with
        | none => none
        | some b => some ⟨some wres, c - cost, n, some b⟩
  else
    match D4Link.protocol.encode payload psid ssid pcredit control with
    | none => none
    | some b => some ⟨some wres, credit0 - cost, 0, some b⟩

/-! ## Packet retrieval (`D4Link.retreive` in d4.py) -/

/-- `D4Link.retreive(retries=6)`.  `fuel` is `1 + retries`; `reads` scripts the
successive `self.target.read()` results (an exhausted script reads `b''`);
`rest` is the leftover buffer `self._received`.  Each iteration appends a
non-empty read to the buffer and calls `self.protocol.decode(rest)` — which
raises `struct.error` when the buffer holds fewer than 6 bytes
(`Except.error ()`).  If the declared payload is incomplete it keeps reading;
otherwise it slices exactly one packet out, stores the remainder and
dispatches (`.ok (some ((header, payload), remainder))`).  Running out of
attempts returns `None` (`.ok none`). -/
def D4Link.retreive (fuel : Nat) (reads : List (List Nat)) (rest : List Nat) :
    Except Unit (Option ((D4PacketHeader × List Nat) × List Nat)) :=
  match fuel with
  | 0 => .ok none
  | n + 1 =>
      let resp := reads.headD []
      let reads1 := reads.tail
      if resp.isEmpty then D4Link.retreive n reads1 rest
      else
        let rest1 := rest ++ resp
        match D4Link.protocol.decode rest1 with
        | none => .error ()
        | some (h, payload) =>
            if payload.length < h.payload_length then
              D4Link.retreive n reads1 rest1
            else
              .ok (some ((h, payload.take h.payload_length),
                         payload.drop h.payload_length))

/-! ## EEPROM response parsing (`Epson.read_eeprom` in epson.py) -/

/-- Python `\s` on an ASCII character (the reply was `decode('ascii')`-ed, so
all code points are below `0x80`): space, tab, LF, VT, FF, CR and the Unicode
file/group/record/unit separators `0x1C`–`0x1F`. -/
def isPySpace (c : Nat) : Bool :=
  decide ((0x09 ≤ c ∧ c ≤ 0x0D) ∨ c = 0x20 ∨ (0x1C ≤ c ∧ c ≤ 0x1F))

/-- A character matched by `[0-9a-fA-F]`. -/
def isHexChar (c : Nat) : Bool :=
  decide ((0x30 ≤ c ∧ c ≤ 0x39) ∨ (0x41 ≤ c ∧ c ≤ 0x46) ∨ (0x61 ≤ c ∧ c ≤ 0x66))

/-- Value of a hex digit character (meaningful when `isHexChar` holds). -/
def hexVal (c : Nat) : Nat :=
  if c ≤ 0x39 then c - 0x30 else if c ≤ 0x46 then c - 0x37 else c - 0x57

/-- Try the tail of the pattern `\sEE:([0-9a-fA-F]{6,6});` at the head of the
text: a whitespace character, then `EE:`, six hex digits and `;`.  Returns the
six digit characters. -/
def eeAt : List Nat → Option (List Nat)
  | s :: e1 :: e2 :: co :: h1 :: h2 :: h3 :: h4 :: h5 :: h6 :: se :: _ =>
      if isPySpace s && (e1 = 0x45 : Bool) && (e2 = 0x45 : Bool) &&
         (co = 0x3A : Bool) && isHexChar h1 && isHexChar h2 && isHexChar h3 &&
         isHexChar h4 && isHexChar h5 && isHexChar h6 && (se = 0x3B : Bool)
      then some [h1, h2, h3, h4, h5, h6] else none
  | _ => none

/-- `re.match(r'.*?\sEE:([0-9a-fA-F]{6,6});', text)`: the lazy `.*?` consumes
non-newline characters one at a time, so the first position where the rest of
the pattern matches wins, and a newline before that position makes the whole
match fail (`.` does not match `\n`). -/
def matchEE : List Nat → Option (List Nat)
  | [] => none
  | c :: rest =>
      match eeAt (c :: rest) with
      | some hs => some hs
      | none => if c = 0x0A then none else matchEE rest

/-- The response-parsing block of `Epson.read_eeprom` for one address `a`:
decode the reply as ASCII, match the `EE:` pattern, turn the six hex digits
into three bytes, `struct.unpack('>'+c+'B', ...)` them (with `c = 'B'` when
`rlen == 1` — which always raises, since 3 bytes never fit `'>BB'` — and
`c = 'H'` otherwise), and `assert` the echoed address equals `a`.  Every
failure is caught by the bare `except` and yields `none`. -/
def parse_ee_reply (rlen : Nat) (a : Nat) (r : List Nat) : Option Nat :=
  if r.all (· < 0x80) then
    match matchEE r with
    | some [h1, h2, h3, h4, h5, h6] =>
        let b0 := hexVal h1 * 16 + hexVal h2
        let b1 := hexVal h3 * 16 + hexVal h4
        let b2 := hexVal h5 * 16 + hexVal h6
        if rlen = 1 then none
        else if b0 * 256 + b1 = a then some b2 else none
    | _ => none
  else none

/-- `Epson.read_eeprom` at the wire level: each requested address is zipped
with the corresponding raw reply from the ctrl channel and parsed; a slot is
`(a, none)` when its reply does not parse or echoes the wrong address. -/
def read_eeprom_parse (rlen : Nat) (addrs : List Nat)
    (replies : List (List Nat)) : List (Nat × Option Nat) :=
  (addrs.zip replies).map (fun ar => (ar.1, parse_ee_reply rlen ar.1 ar.2))

/-! ## EEPROM operations against an abstract printer oracle -/

/-- The device behind the ctrl channel, abstracted: `read s rkey a` is the
parsed outcome of one `read_eeprom` round-trip for address `a` under read key
`rkey` (the reply parsing itself is `parse_ee_reply` above); `write s a v` is
whether the reply to the factory write command contains `":OK;"`.  `σ` is the
printer's internal state, threaded explicitly. -/
structure Printer (σ : Type) where
  read : σ → Nat → Nat → Option Nat × σ
  write : σ → Nat → Nat → Bool × σ

/-- Observable EEPROM interactions: `rd a r` is one read round-trip for
address `a` with parsed outcome `r`; `wr a v ok` is one factory write of value
`v` to address `a` whose reply contained `":OK;"` iff `ok`. -/
inductive Ev where
  | rd : Nat → Option Nat → Ev
  | wr : Nat → Nat → Bool → Ev
  deriving DecidableEq, Repr

/-- The `(addr, value)` pairs of the write events of a trace, in order. -/
def wrPairs (es : List Ev) : List (Nat × Nat) :=
  es.filterMap fun e =>
    match e with
    | .wr a v _ => some (a, v)
    | .rd _ _ => none

/-- `Epson.read_eeprom(*addr)` against the oracle: one read round-trip per
address, in order; returns the `(addr, value|none)` slots, the final printer
state and the event trace. -/
def Epson.read_eeprom {σ : Type} (P : Printer σ) (rkey : Nat) (s : σ) :
    List Nat → List (Nat × Option Nat) × σ × List Ev
  | [] => ([], s, [])
  | a :: rest =>
      let r := P.read s rkey a
      let t := Epson.read_eeprom P rkey r.2 rest
      ((a, r.1) :: t.1, t.2.1, Ev.rd a r.1 :: t.2.2)

/-- One iteration of the write loop of `Epson.write_eeprom` for the pair
`(a, v)`: send the factory write, then
`(b':OK;' in r) and ((not check_read) or (self.read_eeprom(a) == [(a, v)]))` —
the readback read only happens when the reply said OK and `check_read` is on
(Python `and`/`or` short-circuit). -/
def Epson.write1 {σ : Type} (P : Printer σ) (rkey : Nat) (check_read : Bool)
    (s : σ) (a v : Nat) : Bool × σ × List Ev :=
  let w := P.write s a v
  if w.1 then
    if check_read then
      let r := P.read w.2 rkey a
      (decide (r.1 = some v), r.2, [Ev.wr a v w.1, Ev.rd a r.1])
    else (true, w.2, [Ev.wr a v w.1])
  else (false, w.2, [Ev.wr a v w.1])

/-- The write loop of `Epson.write_eeprom`: `res` starts at `True` and each
pair's success is `&=`-ed in.  The messages are packed lazily inside the
generator, one per iteration, so `struct.pack('<HB', a, v)` raising on an
out-of-range address or value (`none`) aborts the loop at that pair with the
earlier writes already performed. -/
def Epson.write_list {σ : Type} (P : Printer σ) (rkey : Nat) (check_read : Bool)
    (s : σ) : List (Nat × Nat) → Option Bool × σ × List Ev
  | [] => (some true, s, [])
  | (a, v) :: rest =>
      if a < 65536 ∧ v < 256 then
        let w := Epson.write1 P rkey check_read s a v
        match Epson.write_list P rkey check_read w.2.1 rest with
        | (some res, s2, e2) => (some (w.1 && res), s2, w.2.2 ++ e2)
        | (none, s2, e2) => (none, s2, w.2.2 ++ e2)
      else (none, s, [])

/-- `Epson.write_eeprom(..., atomic=False)` with the write key already
defaulted from `spec.wkey`.  With no key available (`wkey = none`), the first
packed message `struct.pack(...) + wkey` raises `TypeError` before anything is
sent — unless there are no pairs at all, in which case the loop body never
runs and `True` is returned. -/
def Epson.write_eeprom_na {σ : Type} (P : Printer σ) (rkey : Nat)
    (wkey : Option (List Nat)) (check_read : Bool) (s : σ)
    (pairs : List (Nat × Nat)) : Option Bool × σ × List Ev :=
  match wkey with
  | none => if pairs.isEmpty then (some true, s, []) else (none, s, [])
  | some _ => Epson.write_list P rkey check_read s pairs

/-- `prev` entries `(a, None)` (failed reads) make the restoring
`struct.pack('<HB', a, None)` raise; entries with a value are restored. -/
def unwrapPrev : List (Nat × Option Nat) → Option (List (Nat × Nat))
  | [] => some []
  | (a, some v) :: rest => (unwrapPrev rest).map (fun l => (a, v) :: l)
  | (_, none) :: _ => none

/-- `Epson.write_eeprom(*addrval, wkey, check_read, atomic)`.  When `atomic`,
the current values of all target addresses are read into `prev` first; after
the write loop, if the overall result is false, one non-atomic
`write_eeprom(*prev, wkey=wkey, check_read=check_read, atomic=False)` restores
the previous values and the result is still `False`.  The `none` result models
a propagating Python exception (missing write key, out-of-range pack fields,
or a `None` value in `prev`). -/
def Epson.write_eeprom {σ : Type} (P : Printer σ) (rkey : Nat)
    (wkey : Option (List Nat)) (check_read : Bool) (atomic : Bool) (s : σ)
    (pairs : List (Nat × Nat)) : Option Bool × σ × List Ev :=
  if atomic then
    let rd := Epson.read_eeprom P rkey s (pairs.map Prod.fst)
    let m := Epson.write_eeprom_na P rkey wkey check_read rd.2.1 pairs
    match m.1 with
    | none => (none, m.2.1, rd.2.2 ++ m.2.2)
    | some true => (some true, m.2.1, rd.2.2 ++ m.2.2)
    | some false =>
        match unwrapPrev rd.1 with
        | none => (none, m.2.1, rd.2.2 ++ m.2.2)
        | some pp =>
            let r2 := Epson.write_eeprom_na P rkey wkey check_read m.2.1 pp
            (r2.1.map (fun _ => false), r2.2.1, rd.2.2 ++ m.2.2 ++ r2.2.2)
  else Epson.write_eeprom_na P rkey wkey check_read s pairs

/-! ## Model spec and reset aggregation (`Spec` in epson.py) -/

/-- One entry of `Spec.mem`: known EEPROM addresses with a description and
optional `reset` / `min` value lists. -/
structure MemEntry where
  addr : List Nat
  desc : String
  reset : Option (List Nat) := none
  min : Option (List Nat) := none
  deriving DecidableEq, Repr

/-- The `Spec` dataclass: specification for a group of printer models. -/
structure Spec where
  brand : String := "EPSON"
  idVendor : Nat := 0x04B8
  idProduct : Option Nat := none
  rkey : Nat := 0
  wkey : Option (List Nat) := none
  wkey1 : Option String := none
  rlen : Nat := 2
  wlen : Nat := 2
  mem_low : Nat := 0x00
  mem_high : Nat := 0xFF
  mem : List MemEntry := []
  models : List String := []
  model : Option String := none
  deriving DecidableEq, Repr

/-- Whether `p` occurs as a contiguous sublist of `s`. -/
def listContains (p : List Char) : List Char → Bool
  | [] => p.isEmpty
  | c :: t => p.isPrefixOf (c :: t) || listContains p t

/-- `re.search(pat, desc, re.I)` for the literal patterns used by `_mem_ops`
("waste counter", "platen pad counter"): case-insensitive substring. -/
def descMatches (pat desc : String) : Bool :=
  listContains (pat.toList.map Char.toLower) (desc.toList.map Char.toLower)

/-- `m.get('reset', [0]*len(m['addr']))` in `Spec.get_mem`: an absent `reset`
list defaults to all zeros; `min` is not consulted here. -/
def MemEntry.resetD (e : MemEntry) : List Nat :=
  e.reset.getD (List.replicate e.addr.length 0)

/-- `zip(m['addr'], m.get('reset', [0]*len(m['addr'])))`: `zip` truncates to
the shorter list. -/
def MemEntry.pairs (e : MemEntry) : List (Nat × Nat) := e.addr.zip e.resetD

/-- `av[k] = v` on the insertion-ordered Python dict modelled as an
association list: an existing key keeps its position and gets the new value,
a new key is appended. -/
def dictInsert (av : List (Nat × Nat)) (k v : Nat) : List (Nat × Nat) :=
  if av.any (fun p => p.1 = k) then
    av.map (fun p => if p.1 = k then (k, v) else p)
  else av ++ [(k, v)]

/-- `av.update(zip(...))`: sequential `dictInsert` of each pair. -/
def dictUpdate (av : List (Nat × Nat)) (ps : List (Nat × Nat)) :
    List (Nat × Nat) :=
  ps.foldl (fun acc p => dictInsert acc p.1 p.2) av

/-- The `for m in self.mem` loop of `Spec.get_mem`: each matching entry's
`zip(addr, reset-or-zeros)` pairs are merged into the accumulator dict. -/
def Spec.get_mem_fold (pat : String) (acc : List (Nat × Nat)) :
    List MemEntry → List (Nat × Nat)
  | [] => acc
  | e :: rest =>
      Spec.get_mem_fold pat
        (if descMatches pat e.desc then dictUpdate acc e.pairs else acc) rest

/-- `Spec.get_mem(pat)`: merge the `(addr, reset)` pairs of every `mem` entry
whose `desc` matches `pat`, into one insertion-ordered dict; `None` when
nothing matched (the dict stays empty).  The source returns a dict with
`desc`/`addr`/`reset`; this model returns its `zip(addr, reset)` content,
which is exactly what `_make_reset` hands to `write_eeprom`. -/
def Spec.get_mem (mem : List MemEntry) (pat : String) :
    Option (List (Nat × Nat)) :=
  let av := Spec.get_mem_fold pat [] mem
  if av.isEmpty then none else some av

/-- The synthesized aggregate reset operation (`_mem_ops` + `_make_reset`):
when `get_mem` finds matching entries, the generated `do_reset_All_..._*`
callable runs `self.write_eeprom(*zip(addr, reset), atomic=True)` — a single
atomic write over the merged pairs. -/
def Epson.aggregate_reset {σ : Type} (P : Printer σ) (rkey : Nat)
    (wkey : Option (List Nat)) (check_read : Bool) (mem : List MemEntry)
    (pat : String) (s : σ) : Option (Option Bool × σ × List Ev) :=
  (Spec.get_mem mem pat).map
    (fun av => Epson.write_eeprom P rkey wkey check_read true s av)

/-! ## Read-key search (`Epson.find_rkey` in epson.py) -/

/-- The candidate loop of `find_rkey`: for each candidate `c`, set
`self.spec.rkey = c` and try `self.read_eeprom(pos)[0][1]`; a parsed value
returns `c` with the spec as mutated; exhaustion restores `spec.rkey = orig`
(the `for`/`else`). -/
def Epson.find_rkey_go {σ : Type} (P : Printer σ) (orig pos : Nat) :
    List Nat → Spec → σ → Option Nat × Spec × σ
  | [], sp, s => (none, { sp with rkey := orig }, s)
  | c :: cs, sp, s =>
      let sp1 := { sp with rkey := c }
      let r := P.read s sp1.rkey pos
      match r.1 with
      | some _ => (some c, sp1, r.2)
      | none => Epson.find_rkey_go P orig pos cs sp1 r.2

/-- `Epson.find_rkey(ikeys)`: brute-force the 2-byte read key by reading
`spec.mem_low` under each candidate key. -/
def Epson.find_rkey {σ : Type} (P : Printer σ) (sp : Spec) (s : σ)
    (ikeys : List Nat) : Option Nat × Spec × σ :=
  Epson.find_rkey_go P sp.rkey sp.mem_low ikeys sp s

/-! ## Canonical EEPROM reply construction (spec §4.F reply shape) -/

/-- Uppercase hex digit character for a nibble. -/
def hexDigitU (n : Nat) : Nat := if n < 10 then 0x30 + n else 0x37 + n

/-- Two hex digit characters for a byte. -/
def hexByte (b : Nat) : List Nat := [hexDigitU (b / 16), hexDigitU (b % 16)]

/-- The reply `"@BDC PS EE:" ++ hex(addr:u16 BE) ++ hex(value:u8) ++ ";"`
described by the spec for a 2-byte-address EEPROM read. -/
def mkEEReply (addr v : Nat) : List Nat :=
  [0x40, 0x42, 0x44, 0x43, 0x20, 0x50, 0x53, 0x20, 0x45, 0x45, 0x3A]
    ++ hexByte (addr / 256) ++ hexByte (addr % 256) ++ hexByte v ++ [0x3B]

/-! ## Concrete test oracles -/

/-- A deterministic printer: every read parses to `0x42`, every write reply
contains `":OK;"`. -/
def okPrinter : Printer Unit :=
  ⟨fun s _ _ => (some 0x42, s), fun s _ _ => (true, s)⟩

/-- A printer whose write replies say OK but whose reads always parse to
`0x42` — so a readback check for any other value fails. -/
def stuckPrinter : Printer Unit :=
  ⟨fun s _ _ => (some 0x42, s), fun s _ _ => (true, s)⟩

/-- A printer whose reads never parse. -/
def deafPrinter : Printer Unit :=
  ⟨fun s _ _ => (none, s), fun s _ _ => (true, s)⟩

/-- The `mem` table exercising the aggregate reset defaulting: one matching
entry with only a `min` list, one with a `reset` list shorter than `addr`. -/
def memCx : List MemEntry :=
  [⟨[1], "waste counter", none, some [5]⟩,
   ⟨[2, 3], "waste counter x", some [7], none⟩]

end Reink

/-! ## Theorems -/

namespace Reink

/-- C5: for every `psid`, `ssid`, `credit`, `control` that are unsigned bytes
and every payload of length at most `0xFFF9`, decoding the encoding returns a
header with exactly those field values together with the original payload, and
the header's `length` field equals `6 + len(payload)`. -/
theorem c5_packet_codec_roundtrip (payload : List Nat)
    (psid ssid credit control : Nat)
    (hp : psid < 256) (hs : ssid < 256) (hc : credit < 256) (hk : control < 256)
    (hl : payload.length ≤ 0xFFF9) :
    D4Link.protocol.encode payload psid ssid credit control =
      some ([psid, ssid, (6 + payload.length) / 256, (6 + payload.length) % 256,
             credit, control] ++ payload) ∧
    (D4Link.protocol.encode payload psid ssid credit control).bind
        D4Link.protocol.decode =
      some (⟨psid, ssid, 6 + payload.length, credit, control⟩, payload) ∧
    (6 + payload.length : Nat) = 6 + payload.length := by
  have hrange : 6 + payload.length < 65536 := by omega
  have henc : D4Link.protocol.encode payload psid ssid credit control =
      some ([psid, ssid, (6 + payload.length) / 256, (6 + payload.length) % 256,
             credit, control] ++ payload) := by
    unfold D4Link.protocol.encode
    rw [if_pos ⟨hp, hs, hc, hk, hrange⟩]
  refine ⟨henc, ?_, rfl⟩
  rw [henc, Option.some_bind]
  have harr : (6 + payload.length) / 256 * 256 + (6 + payload.length) % 256
      = 6 + payload.length := by omega
  simp [D4Link.protocol.decode, harr]

/-- Witness for C5 at a concrete packet. -/
theorem c5_packet_codec_roundtrip_witness :
    D4Link.protocol.encode [0xAA, 0xBB] 2 3 1 0 =
      some ([2, 3, 0, 8, 1, 0] ++ [0xAA, 0xBB]) ∧
    (D4Link.protocol.encode [0xAA, 0xBB] 2 3 1 0).bind D4Link.protocol.decode =
      some (⟨2, 3, 8, 1, 0⟩, [0xAA, 0xBB]) ∧
    (6 + ([0xAA, 0xBB] : List Nat).length : Nat) = 6 + 2 :=
  c5_packet_codec_roundtrip [0xAA, 0xBB] 2 3 1 0 (by decide) (by decide)
    (by decide) (by decide) (by decide)

/-- C2: for every payload `p` (with `rkey` a u16 and the framed length in
range, as `struct.pack` requires), `encode(("|","A"), p)` produces exactly
`"||" ++ (5+len p):u16 LE ++ rkey:u16 LE ++ 0x41 0xBE 0xA0 ++ p`, and
`encode(("|","B"), p)` produces the same layout with the checksum triplet
`0x42 0xBD 0x21`; the triplet is `(c, ~c & 0xFF, (c>>1 & 0x7F)|(c<<7 & 0x80))`
for the inner character `c`. -/
theorem c2_factory_encode (rkey : Nat) (payload : List Nat)
    (hr : rkey < 65536) (hl : 5 + payload.length < 65536) :
    Epson.encode rkey (.factory 0x7C 0x41) payload =
      some ([0x7C, 0x7C] ++ [(5 + payload.length) % 256, (5 + payload.length) / 256]
            ++ [rkey % 256, rkey / 256] ++ [0x41, 0xBE, 0xA0] ++ payload) ∧
    Epson.encode rkey (.factory 0x7C 0x42) payload =
      some ([0x7C, 0x7C] ++ [(5 + payload.length) % 256, (5 + payload.length) / 256]
            ++ [rkey % 256, rkey / 256] ++ [0x42, 0xBD, 0x21] ++ payload) := by
  constructor
  · simp only [Epson.encode]
    rw [if_pos ⟨by omega, hr, by omega, hl⟩]
    rfl
  · simp only [Epson.encode]
    rw [if_pos ⟨by omega, hr, by omega, hl⟩]
    rfl

/-- C3: on the initial `Init(0x20)`, an `InitReply` with result `0x02` and
revision `0x10` switches the transaction channel's command table to `0x10` and
re-issues `Init(0x10)` (so against the scripted mock
`[(0x02,0x10),(0x00,0x10)]` the second Init carries revision `0x10` and the
call succeeds with the table at `0x10`); result `0x00` means success; results
`0x01`/`0x0B` raise; a `0x02` reply with an unknown revision fails. -/
theorem c3_send_init_negotiation (rest : List (Nat × Nat)) (p rev : Nat) :
    (D4Link.send_init ((0x02, 0x10) :: rest) p 0x20 =
        ((D4Link.send_init rest 0x10 0x10).1,
         (D4Link.send_init rest 0x10 0x10).2.1,
         0x20 :: (D4Link.send_init rest 0x10 0x10).2.2))
    ∧ D4Link.send_init [(0x02, 0x10), (0x00, 0x10)] 0x20 0x20 =
        (.success, 0x10, [0x20, 0x10])
    ∧ D4Link.send_init ((0x00, rev) :: rest) p 0x20 = (.success, p, [0x20])
    ∧ D4Link.send_init ((0x01, rev) :: rest) p 0x20 = (.raised, p, [0x20])
    ∧ D4Link.send_init ((0x0B, rev) :: rest) p 0x20 = (.raised, p, [0x20])
    ∧ (rev ≠ 0x10 → rev ≠ 0x20 →
        D4Link.send_init ((0x02, rev) :: rest) p 0x20 = (.failed, p, [0x20])) := by
  refine ⟨by simp [D4Link.send_init], rfl, by simp [D4Link.send_init],
          by simp [D4Link.send_init], by simp [D4Link.send_init], ?_⟩
  intro h10 h20
  have hne : rev ≠ 0x20 := h20
  simp [D4Link.send_init, hne, h10, h20]

/-- Witness for C3: the mock scenario and an unknown-revision reply. -/
theorem c3_send_init_negotiation_witness :
    D4Link.send_init [(0x02, 0x10), (0x00, 0x10)] 0x20 0x20 =
      (.success, 0x10, [0x20, 0x10])
    ∧ D4Link.send_init [(0x02, 0x30)] 0x20 0x20 = (.failed, 0x20, [0x20]) :=
  ⟨(c3_send_init_negotiation [] 0x20 0x10).2.1,
   (c3_send_init_negotiation [] 0x20 0x30).2.2.2.2.2 (by decide) (by decide)⟩

/-- C4: for `send` with `check=true`, if the channel's credit is below `cost`
at least one `CreditRequest` is issued before dispatch; if the credit observed
by each of the three checks stays below `cost`, nothing is written, the cost
is not deducted (the credit only changed by the granted amounts) and `None` is
returned; on dispatch the credit is decremented by `cost`, the encoded packet
is written and the write result returned — and the channel credit at the
moment of dispatch is never negative. -/
theorem c4_send_credit_check (wres : Nat) (g1 g2 g3 : Int) (payload : List Nat)
    (psid ssid pcredit control : Nat) (credit0 cost : Int)
    (hp : psid < 256) (hs : ssid < 256) (hc : pcredit < 256) (hk : control < 256)
    (hl : 6 + payload.length < 65536) :
    ∃ o, D4Link.send wres g1 g2 g3 payload psid ssid pcredit control credit0 cost
          true = some o
      ∧ (credit0 < cost → 1 ≤ o.nRequests)
      ∧ (credit0 < cost → credit0 + g1 < cost → credit0 + g1 + g2 < cost →
          o = ⟨none, credit0 + g1 + g2 + g3, 3, none⟩)
      ∧ (∀ b, o.sent = some b →
          o.result = some wres ∧ 0 ≤ o.chCredit ∧
          b = [psid, ssid, (6 + payload.length) / 256, (6 + payload.length) % 256,
               pcredit, control] ++ payload) := by
  have henc : D4Link.protocol.encode payload psid ssid pcredit control =
      some ([psid, ssid, (6 + payload.length) / 256, (6 + payload.length) % 256,
             pcredit, control] ++ payload) := by
    unfold D4Link.protocol.encode
    rw [if_pos ⟨hp, hs, hc, hk, hl⟩]
  by_cases h1 : cost ≤ credit0
  · refine ⟨⟨some wres, credit0 - cost, 0,
        some ([psid, ssid, (6 + payload.length) / 256, (6 + payload.length) % 256,
               pcredit, control] ++ payload)⟩,
      by simp [D4Link.send, creditLoop, h1, henc], ?_, ?_, ?_⟩
    · intro h; exact absurd h (not_lt.2 h1)
    · intro h _ _; exact absurd h (not_lt.2 h1)
    · intro b hb
      exact ⟨rfl, by show (0:Int) ≤ credit0 - cost; omega,
             (Option.some.inj hb).symm⟩
  · by_cases h2 : cost ≤ credit0 + g1
    · refine ⟨⟨some wres, credit0 + g1 - cost, 1,
          some ([psid, ssid, (6 + payload.length) / 256, (6 + payload.length) % 256,
               pcredit, control] ++ payload)⟩,
        by simp [D4Link.send, creditLoop, h1, h2, henc], ?_, ?_, ?_⟩
      · intro _; exact le_refl 1
      · intro _ h _; exact absurd h (not_lt.2 h2)
      · intro b hb
        exact ⟨rfl, by show (0:Int) ≤ credit0 + g1 - cost; omega,
               (Option.some.inj hb).symm⟩
    · by_cases h3 : cost ≤ credit0 + g1 + g2
      · refine ⟨⟨some wres, credit0 + g1 + g2 - cost, 2,
            some ([psid, ssid, (6 + payload.length) / 256, (6 + payload.length) % 256,
               pcredit, control] ++ payload)⟩,
          by simp [D4Link.send, creditLoop, h1, h2, henc, ← add_assoc, h3], ?_, ?_, ?_⟩
        · intro _; show (1:Nat) ≤ 2; omega
        · intro _ _ h; exact absurd h (not_lt.2 h3)
        · intro b hb
          exact ⟨rfl, by show (0:Int) ≤ credit0 + g1 + g2 - cost; omega,
                 (Option.some.inj hb).symm⟩
      · refine ⟨⟨none, credit0 + g1 + g2 + g3, 3, none⟩,
          by simp [D4Link.send, creditLoop, h1, h2, henc, ← add_assoc, h3], ?_, ?_, ?_⟩
        · intro _; show (1:Nat) ≤ 3; omega
        · intro _ _ _; rfl
        · intro b hb; exact absurd hb (by simp)

/-- Witness for C4: starting with zero credit and a single granted credit,
the packet is dispatched after one `CreditRequest` with nonnegative credit. -/
theorem c4_send_credit_check_witness :
    ∃ o, D4Link.send 7 1 0 0 [0xAA] 2 2 1 0 0 1 true = some o
      ∧ ((0:Int) < 1 → 1 ≤ o.nRequests)
      ∧ ((0:Int) < 1 → (0:Int) + 1 < 1 → (0:Int) + 1 + 0 < 1 →
          o = ⟨none, 0 + 1 + 0 + 0, 3, none⟩)
      ∧ (∀ b, o.sent = some b →
          o.result = some 7 ∧ 0 ≤ o.chCredit ∧
          b = [2, 2, (6 + [0xAA].length) / 256, (6 + [0xAA].length) % 256, 1, 0]
              ++ [0xAA]) :=
  c4_send_credit_check 7 1 0 0 [0xAA] 2 2 1 0 0 1 (by decide) (by decide)
    (by decide) (by decide) (by decide)

/-- C8: a packet whose bytes arrive split inside the 6-byte header makes
`retreive` raise `struct.error` (the buffer of 3 bytes is fed to
`protocol.decode`, whose `unpack` needs exactly 6) instead of reassembling —
while a split at or after the header boundary is reassembled and dispatched
exactly once, and with several complete packets buffered only one is returned
per call, the remainder being kept for the next call. -/
theorem c8_retreive_header_split_crash :
    D4Link.retreive 7 [[0x02, 0x02, 0x00], [0x07, 0x01, 0x00, 0xAA]] [] =
      .error ()
    ∧ D4Link.retreive 7 [[0x02, 0x02, 0x00, 0x07, 0x01, 0x00], [0xAA]] [] =
        .ok (some ((⟨2, 2, 7, 1, 0⟩, [0xAA]), []))
    ∧ D4Link.retreive 7
        [[0x02, 0x02, 0x00, 0x07, 0x01, 0x00, 0xAA,
          0x02, 0x02, 0x00, 0x07, 0x01, 0x00, 0xBB]] [] =
        .ok (some ((⟨2, 2, 7, 1, 0⟩, [0xAA]),
                   [0x02, 0x02, 0x00, 0x07, 0x01, 0x00, 0xBB])) :=
  ⟨rfl, rfl, rfl⟩

/-- The slots returned by `read_eeprom` list exactly the requested addresses,
and its event trace is one read event per slot, in order. -/
theorem read_eeprom_spec {σ : Type} (P : Printer σ) (rkey : Nat) :
    ∀ (as : List Nat) (s : σ),
      (Epson.read_eeprom P rkey s as).1.map Prod.fst = as
      ∧ (Epson.read_eeprom P rkey s as).2.2
          = (Epson.read_eeprom P rkey s as).1.map (fun x => Ev.rd x.1 x.2) := by
  intro as
  induction as with
  | nil => intro s; exact ⟨rfl, rfl⟩
  | cons a rest ih =>
      intro s
      obtain ⟨h1, h2⟩ := ih (P.read s rkey a).2
      simp [Epson.read_eeprom, h1, h2]

/-- A trace of read events contains no write pairs. -/
theorem wrPairs_rd_map (l : List (Nat × Option Nat)) :
    wrPairs (l.map (fun x => Ev.rd x.1 x.2)) = [] := by
  induction l with
  | nil => rfl
  | cons x t ih => simp [wrPairs, List.filterMap_cons]

/-- `wrPairs` distributes over trace concatenation. -/
theorem wrPairs_append (l1 l2 : List Ev) :
    wrPairs (l1 ++ l2) = wrPairs l1 ++ wrPairs l2 := by
  simp [wrPairs, List.filterMap_append]

/-- C9: `write_eeprom` invoked with no usable write key (no explicit `wkey`
and `spec.wkey` is `None`) never sends a factory write command and does not
complete: the lazily packed first message raises `TypeError` on
`bytes + None`, so the call produces no boolean result and its trace contains
no write event (with `atomic=true` only the preliminary reads happened). -/
theorem c9_write_eeprom_missing_wkey {σ : Type} (P : Printer σ) (rkey : Nat)
    (check_read atomic : Bool) (s : σ) (pairs : List (Nat × Nat))
    (hne : pairs ≠ []) :
    (Epson.write_eeprom P rkey none check_read atomic s pairs).1 = none
    ∧ wrPairs (Epson.write_eeprom P rkey none check_read atomic s pairs).2.2
        = [] := by
  have hemp : pairs.isEmpty = false := by
    cases pairs with
    | nil => exact absurd rfl hne
    | cons a t => rfl
  cases atomic with
  | false =>
      constructor
      · simp [Epson.write_eeprom, Epson.write_eeprom_na, hemp]
      · simp [Epson.write_eeprom, Epson.write_eeprom_na, hemp, wrPairs]
  | true =>
      obtain ⟨h1, h2⟩ := read_eeprom_spec P rkey (pairs.map Prod.fst) s
      constructor
      · simp [Epson.write_eeprom, Epson.write_eeprom_na, hemp]
      · simp [Epson.write_eeprom, Epson.write_eeprom_na, hemp, h2,
              wrPairs_rd_map, wrPairs_append, wrPairs]

/-- Witness for C9: a keyless write of one pair is refused with no write
event. -/
theorem c9_write_eeprom_missing_wkey_witness :
    (Epson.write_eeprom okPrinter 0 none true true () [(5, 1)]).1 = none
    ∧ wrPairs (Epson.write_eeprom okPrinter 0 none true true () [(5, 1)]).2.2
        = [] :=
  c9_write_eeprom_missing_wkey okPrinter 0 true true () [(5, 1)] (by decide)

/-- Invariant of the `find_rkey` candidate loop: only `rkey` is mutated; on
exhaustion it is restored to `orig`; a hit leaves it at the found candidate,
which is returned and belongs to the candidate list. -/
theorem find_rkey_go_spec {σ : Type} (P : Printer σ) (orig pos : Nat)
    (ikeys : List Nat) :
    ∀ (sp : Spec) (s : σ),
      ((Epson.find_rkey_go P orig pos ikeys sp s).2.1 =
        { sp with rkey := (Epson.find_rkey_go P orig pos ikeys sp s).2.1.rkey })
      ∧ ((Epson.find_rkey_go P orig pos ikeys sp s).1 = none →
          (Epson.find_rkey_go P orig pos ikeys sp s).2.1.rkey = orig)
      ∧ (∀ c, (Epson.find_rkey_go P orig pos ikeys sp s).1 = some c →
          (Epson.find_rkey_go P orig pos ikeys sp s).2.1.rkey = c ∧ c ∈ ikeys) := by
  induction ikeys with
  | nil =>
      intro sp s
      exact ⟨rfl, fun _ => rfl, fun c h => nomatch h⟩
  | cons c cs ih =>
      intro sp s
      rcases hpr : P.read s c pos with ⟨r1, s1⟩
      cases r1 with
      | some v =>
          have hgo : Epson.find_rkey_go P orig pos (c :: cs) sp s
              = (some c, { sp with rkey := c }, s1) := by
            simp only [Epson.find_rkey_go, hpr]
          rw [hgo]
          refine ⟨rfl, by simp, ?_⟩
          intro d hd
          have hd' : c = d := by simpa using hd
          subst hd'
          exact ⟨rfl, List.mem_cons_self c cs⟩
      | none =>
          have hgo : Epson.find_rkey_go P orig pos (c :: cs) sp s
              = Epson.find_rkey_go P orig pos cs { sp with rkey := c } s1 := by
            simp only [Epson.find_rkey_go, hpr]
          rw [hgo]
          obtain ⟨f, hn, hs⟩ := ih { sp with rkey := c } s1
          refine ⟨f, hn, ?_⟩
          intro d hd
          obtain ⟨ha, hb⟩ := hs d hd
          exact ⟨ha, List.mem_cons_of_mem c hb⟩

/-- C10: `find_rkey` leaves every spec field other than `rkey` unchanged;
when no candidate parses (result `none`) the whole spec is restored to its
original value; when a candidate parses, `spec.rkey` is left at that candidate
and it is returned (and it came from the candidate list). -/
theorem c10_find_rkey_frame {σ : Type} (P : Printer σ) (sp : Spec) (s : σ)
    (ikeys : List Nat) :
    ((Epson.find_rkey P sp s ikeys).2.1 =
        { sp with rkey := (Epson.find_rkey P sp s ikeys).2.1.rkey })
    ∧ ((Epson.find_rkey P sp s ikeys).1 = none →
        (Epson.find_rkey P sp s ikeys).2.1 = sp)
    ∧ (∀ c, (Epson.find_rkey P sp s ikeys).1 = some c →
        (Epson.find_rkey P sp s ikeys).2.1.rkey = c ∧ c ∈ ikeys) := by
  obtain ⟨f, hn, hs⟩ := find_rkey_go_spec P sp.rkey sp.mem_low ikeys sp s
  refine ⟨f, ?_, hs⟩
  intro h
  have h' : (Epson.find_rkey_go P sp.rkey sp.mem_low ikeys sp s).1 = none := h
  show (Epson.find_rkey_go P sp.rkey sp.mem_low ikeys sp s).2.1 = sp
  rw [f, hn h']

/-- Witness for C10: a printer that never parses restores the default spec. -/
theorem c10_find_rkey_frame_witness :
    (Epson.find_rkey deafPrinter {} () [1, 2]).1 = none
    ∧ (Epson.find_rkey deafPrinter {} () [1, 2]).2.1 = {} :=
  ⟨rfl, (c10_find_rkey_frame deafPrinter {} () [1, 2]).2.1 rfl⟩

/-- Witness for C2 at a concrete read key and payload. -/
theorem c2_factory_encode_witness :
    Epson.encode 0x0203 (.factory 0x7C 0x41) [0x05, 0x00] =
      some ([0x7C, 0x7C] ++ [7, 0] ++ [0x03, 0x02] ++ [0x41, 0xBE, 0xA0]
            ++ [0x05, 0x00]) ∧
    Epson.encode 0x0203 (.factory 0x7C 0x42) [0x05, 0x00] =
      some ([0x7C, 0x7C] ++ [7, 0] ++ [0x03, 0x02] ++ [0x42, 0xBD, 0x21]
            ++ [0x05, 0x00]) :=
  c2_factory_encode 0x0203 [0x05, 0x00] (by decide) (by decide)

/-- An uppercase hex digit character is a hex digit in the ASCII range and is
not a newline. -/
theorem hexDigitU_props (n : Nat) (h : n < 16) :
    isHexChar (hexDigitU n) = true ∧ hexDigitU n < 0x80 ∧
    hexDigitU n ≠ 0x0A := by
  by_cases h10 : n < 10
  · rw [show hexDigitU n = 0x30 + n from if_pos h10]
    refine ⟨?_, by omega, by omega⟩
    simp only [isHexChar, decide_eq_true_eq]
    omega
  · rw [show hexDigitU n = 0x37 + n from if_neg h10]
    refine ⟨?_, by omega, by omega⟩
    simp only [isHexChar, decide_eq_true_eq]
    omega

/-- `hexVal` inverts `hexDigitU` on nibbles. -/
theorem hexVal_hexDigitU (n : Nat) (h : n < 16) : hexVal (hexDigitU n) = n := by
  by_cases h10 : n < 10
  · rw [show hexDigitU n = 0x30 + n from if_pos h10]
    unfold hexVal
    rw [if_pos (by omega)]
    omega
  · rw [show hexDigitU n = 0x37 + n from if_neg h10]
    unfold hexVal
    rw [if_neg (by omega), if_pos (by omega)]
    omega

/-- The lazy `EE:` pattern search finds exactly the hex digits of the
canonical reply. -/
theorem matchEE_mkEEReply (addr v : Nat) (ha : addr < 65536) (hv : v < 256) :
    matchEE (mkEEReply addr v) =
      some [hexDigitU (addr / 256 / 16), hexDigitU (addr / 256 % 16),
            hexDigitU (addr % 256 / 16), hexDigitU (addr % 256 % 16),
            hexDigitU (v / 16), hexDigitU (v % 16)] := by
  obtain ⟨x1, y1, z1⟩ := hexDigitU_props (addr / 256 / 16) (by omega)
  obtain ⟨x2, y2, z2⟩ := hexDigitU_props (addr / 256 % 16) (by omega)
  obtain ⟨x3, y3, z3⟩ := hexDigitU_props (addr % 256 / 16) (by omega)
  obtain ⟨x4, y4, z4⟩ := hexDigitU_props (addr % 256 % 16) (by omega)
  obtain ⟨x5, y5, z5⟩ := hexDigitU_props (v / 16) (by omega)
  obtain ⟨x6, y6, z6⟩ := hexDigitU_props (v % 16) (by omega)
  simp [mkEEReply, hexByte, matchEE, eeAt, isPySpace,
        x1, x2, x3, x4, x5, x6]

/-- C6: a `read_eeprom` reply of the form `"@BDC PS EE:<6 hex chars>;"` whose
6 hex characters decode (big-endian, 2-byte address then one value byte) to an
echoed address equal to the requested one yields that value; an echoed address
mismatch yields `none`; and concretely, with `rlen=2` and address 5 the reply
`"@BDC PS EE:00050F;"` yields `[(5, 0x0F)]` while an echo of address 6 yields
`[(5, none)]`. -/
theorem c6_read_eeprom_reply (a p v : Nat) (ha : a < 65536) (hp : p < 65536)
    (hv : v < 256) (hne : p ≠ a) :
    parse_ee_reply 2 a (mkEEReply a v) = some v
    ∧ parse_ee_reply 2 a (mkEEReply p v) = none
    ∧ read_eeprom_parse 2 [5]
        [[0x40, 0x42, 0x44, 0x43, 0x20, 0x50, 0x53, 0x20,
          0x45, 0x45, 0x3A, 0x30, 0x30, 0x30, 0x35, 0x30, 0x46, 0x3B]]
        = [(5, some 0x0F)]
    ∧ read_eeprom_parse 2 [5]
        [[0x40, 0x42, 0x44, 0x43, 0x20, 0x50, 0x53, 0x20,
          0x45, 0x45, 0x3A, 0x30, 0x30, 0x30, 0x36, 0x30, 0x46, 0x3B]]
        = [(5, none)] := by
  have hgen : ∀ q : Nat, q < 65536 →
      parse_ee_reply 2 a (mkEEReply q v) =
        if q = a then some v else none := by
    intro q hq
    obtain ⟨x1, y1, z1⟩ := hexDigitU_props (q / 256 / 16) (by omega)
    obtain ⟨x2, y2, z2⟩ := hexDigitU_props (q / 256 % 16) (by omega)
    obtain ⟨x3, y3, z3⟩ := hexDigitU_props (q % 256 / 16) (by omega)
    obtain ⟨x4, y4, z4⟩ := hexDigitU_props (q % 256 % 16) (by omega)
    obtain ⟨x5, y5, z5⟩ := hexDigitU_props (v / 16) (by omega)
    obtain ⟨x6, y6, z6⟩ := hexDigitU_props (v % 16) (by omega)
    have hall : (mkEEReply q v).all (· < 0x80) = true := by
      simp [mkEEReply, hexByte]
      omega
    unfold parse_ee_reply
    rw [hall, if_pos rfl, matchEE_mkEEReply q v hq hv]
    simp only [hexVal_hexDigitU (q / 256 / 16) (by omega),
      hexVal_hexDigitU (q / 256 % 16) (by omega),
      hexVal_hexDigitU (q % 256 / 16) (by omega),
      hexVal_hexDigitU (q % 256 % 16) (by omega),
      hexVal_hexDigitU (v / 16) (by omega),
      hexVal_hexDigitU (v % 16) (by omega)]
    rw [if_neg (by omega)]
    have hq' : q / 256 / 16 * 16 + q / 256 % 16 = q / 256 := by omega
    have hq2 : q % 256 / 16 * 16 + q % 256 % 16 = q % 256 := by omega
    have hv' : v / 16 * 16 + v % 16 = v := by omega
    rw [hq', hq2, hv']
    by_cases hqa : q = a
    · rw [if_pos (by omega), if_pos hqa]
    · rw [if_neg (by omega), if_neg hqa]
  refine ⟨?_, ?_, by decide, by decide⟩
  · rw [hgen a ha, if_pos rfl]
  · rw [hgen p hp, if_neg hne]

/-- One write-loop iteration emits exactly one write event, for its own
pair. -/
theorem write1_wrPairs {σ : Type} (P : Printer σ) (rkey : Nat) (cr : Bool)
    (s : σ) (a v : Nat) :
    wrPairs (Epson.write1 P rkey cr s a v).2.2 = [(a, v)] := by
  rcases hw : P.write s a v with ⟨ok, s1⟩
  cases ok <;> cases cr <;>
    simp [Epson.write1, hw, wrPairs, List.filterMap_cons]

/-- With a usable key and in-range pairs the write loop completes with a
boolean result, and its write events are exactly the requested pairs, each
written once, in order. -/
theorem write_list_spec {σ : Type} (P : Printer σ) (rkey : Nat) (cr : Bool) :
    ∀ (pairs : List (Nat × Nat)) (s : σ),
      (∀ p ∈ pairs, p.1 < 65536 ∧ p.2 < 256) →
      ∃ res, (Epson.write_list P rkey cr s pairs).1 = some res
        ∧ wrPairs (Epson.write_list P rkey cr s pairs).2.2 = pairs := by
  intro pairs
  induction pairs with
  | nil => exact fun s _ => ⟨true, rfl, rfl⟩
  | cons pv rest ih =>
      intro s hr
      obtain ⟨a, v⟩ := pv
      have hav : a < 65536 ∧ v < 256 := hr (a, v) (List.mem_cons_self _ _)
      obtain ⟨res, hres, hwr⟩ := ih (Epson.write1 P rkey cr s a v).2.1
        (fun p hp => hr p (List.mem_cons_of_mem _ hp))
      rcases hcall : Epson.write_list P rkey cr (Epson.write1 P rkey cr s a v).2.1
          rest with ⟨r2, s2, e2⟩
      rw [hcall] at hres hwr
      have hres' : r2 = some res := hres
      have hwr' : wrPairs e2 = rest := hwr
      have hstep : Epson.write_list P rkey cr s ((a, v) :: rest)
          = (some ((Epson.write1 P rkey cr s a v).1 && res), s2,
             (Epson.write1 P rkey cr s a v).2.2 ++ e2) := by
        simp only [Epson.write_list]
        rw [if_pos hav, hcall, hres']
      refine ⟨(Epson.write1 P rkey cr s a v).1 && res, by rw [hstep], ?_⟩
      rw [hstep]
      show wrPairs ((Epson.write1 P rkey cr s a v).2.2 ++ e2) = (a, v) :: rest
      rw [wrPairs_append, write1_wrPairs, hwr']
      rfl

/-- When every preliminary read parsed, `prev` unwraps to concrete restore
pairs carrying exactly the read addresses and values. -/
theorem unwrapPrev_spec :
    ∀ (l : List (Nat × Option Nat)),
      (∀ x ∈ l, ∃ v, x.2 = some v) →
      ∃ pp, unwrapPrev l = some pp
        ∧ pp.map (fun x => (x.1, some x.2)) = l := by
  intro l
  induction l with
  | nil => exact fun _ => ⟨[], rfl, rfl⟩
  | cons x t ih =>
      intro h
      obtain ⟨v, hv⟩ := h x (List.mem_cons_self _ _)
      obtain ⟨pp, hpp, hmap⟩ := ih (fun y hy => h y (List.mem_cons_of_mem _ hy))
      obtain ⟨a, xv⟩ := x
      have hv' : xv = some v := hv
      subst hv'
      refine ⟨(a, v) :: pp, ?_, ?_⟩
      · simp [unwrapPrev, hpp]
      · simp [hmap]

/-- C1: an atomic `write_eeprom` with a usable key and in-range pairs whose
preliminary reads all parse (i) first reads the original values of all target
addresses, in order, before any write; (ii) completes with the boolean
computed by the write loop (the AND over the per-pair `":OK;"`-and-readback
successes); (iii) on success writes each pair exactly once with no restore;
and (iv) on failure performs exactly one non-atomic restoring write of `prev`
(the original value of every target address, each written once, after the main
writes) and still returns `false`. -/
theorem c1_write_eeprom_atomic {σ : Type} (P : Printer σ) (rkey : Nat)
    (k : List Nat) (check_read : Bool) (s : σ) (pairs : List (Nat × Nat))
    (hrange : ∀ p ∈ pairs, p.1 < 65536 ∧ p.2 < 256)
    (hprev : ∀ x ∈ (Epson.read_eeprom P rkey s (pairs.map Prod.fst)).1,
        ∃ v, x.2 = some v ∧ v < 256) :
    ((Epson.write_eeprom P rkey (some k) check_read true s pairs).2.2.take
        pairs.length
      = (Epson.read_eeprom P rkey s (pairs.map Prod.fst)).1.map
          (fun x => Ev.rd x.1 x.2))
    ∧ ((Epson.read_eeprom P rkey s (pairs.map Prod.fst)).1.map Prod.fst
        = pairs.map Prod.fst)
    ∧ (∃ res,
        (Epson.write_eeprom P rkey (some k) check_read true s pairs).1 = some res
        ∧ (Epson.write_list P rkey check_read
            (Epson.read_eeprom P rkey s (pairs.map Prod.fst)).2.1 pairs).1
          = some res)
    ∧ ((Epson.write_eeprom P rkey (some k) check_read true s pairs).1 = some true →
        wrPairs (Epson.write_eeprom P rkey (some k) check_read true s pairs).2.2
          = pairs)
    ∧ ((Epson.write_eeprom P rkey (some k) check_read true s pairs).1 = some false →
        ∃ pp,
          unwrapPrev (Epson.read_eeprom P rkey s (pairs.map Prod.fst)).1 = some pp
          ∧ pp.map (fun x => (x.1, some x.2))
              = (Epson.read_eeprom P rkey s (pairs.map Prod.fst)).1
          ∧ wrPairs
              (Epson.write_eeprom P rkey (some k) check_read true s pairs).2.2
            = pairs ++ pp) := by
  obtain ⟨hmap, htr⟩ := read_eeprom_spec P rkey (pairs.map Prod.fst) s
  set rd := Epson.read_eeprom P rkey s (pairs.map Prod.fst) with hrddef
  obtain ⟨res, hres, hwr⟩ := write_list_spec P rkey check_read pairs rd.2.1 hrange
  set wl := Epson.write_list P rkey check_read rd.2.1 pairs with hwldef
  have hna1 : Epson.write_eeprom_na P rkey (some k) check_read rd.2.1 pairs = wl :=
    rfl
  obtain ⟨pp, hpp, hppmap⟩ :=
    unwrapPrev_spec rd.1 (fun x hx => (hprev x hx).imp (fun v hv => hv.1))
  have hppfst : pp.map Prod.fst = pairs.map Prod.fst := by
    have h1 : (pp.map (fun x => (x.1, some x.2))).map Prod.fst
        = rd.1.map Prod.fst := by rw [hppmap]
    rw [List.map_map] at h1
    have h2 : pp.map (Prod.fst ∘ fun x : Nat × Nat => (x.1, some x.2))
        = pp.map Prod.fst := List.map_congr_left (fun x _ => rfl)
    rw [h2] at h1
    exact h1.trans hmap
  have hpprange : ∀ p ∈ pp, p.1 < 65536 ∧ p.2 < 256 := by
    intro p hp
    constructor
    · have h1 : p.1 ∈ pairs.map Prod.fst := by
        rw [← hppfst]
        exact List.mem_map_of_mem Prod.fst hp
      rcases List.mem_map.1 h1 with ⟨q, hq, hq1⟩
      exact hq1 ▸ (hrange q hq).1
    · have h2 : (p.1, some p.2) ∈ rd.1 := by
        rw [← hppmap]
        exact List.mem_map_of_mem _ hp
      obtain ⟨v, hv, hvlt⟩ := hprev _ h2
      have hv' : p.2 = v := Option.some.inj hv
      rwa [← hv'] at hvlt
  obtain ⟨res2, hres2, hwr2⟩ := write_list_spec P rkey check_read pp wl.2.1 hpprange
  have hlen : rd.2.2.length = pairs.length := by
    rw [htr, List.length_map]
    have := congrArg List.length hmap
    simpa using this
  cases res with
  | true =>
      have hout : Epson.write_eeprom P rkey (some k) check_read true s pairs
          = (some true, wl.2.1, rd.2.2 ++ wl.2.2) := by
        simp only [Epson.write_eeprom]
        rw [if_pos trivial, ← hrddef, hna1, hres]
      refine ⟨?_, hmap, ⟨true, by rw [hout], hres⟩, ?_, ?_⟩
      · rw [hout]
        show (rd.2.2 ++ wl.2.2).take pairs.length = _
        rw [List.take_left' hlen, htr]
      · intro _
        rw [hout]
        show wrPairs (rd.2.2 ++ wl.2.2) = pairs
        rw [wrPairs_append, htr, wrPairs_rd_map, hwr]
        rfl
      · intro h
        rw [hout] at h
        exact absurd (Option.some.inj h) (by simp)
  | false =>
      set wl2 := Epson.write_list P rkey check_read wl.2.1 pp with hwl2def
      have hna2 : Epson.write_eeprom_na P rkey (some k) check_read wl.2.1 pp = wl2 :=
        rfl
      have hout : Epson.write_eeprom P rkey (some k) check_read true s pairs
          = (some false, wl2.2.1, rd.2.2 ++ wl.2.2 ++ wl2.2.2) := by
        simp only [Epson.write_eeprom]
        rw [if_pos trivial, ← hrddef, hna1, hres, hpp]
        show ((Epson.write_eeprom_na P rkey (some k) check_read wl.2.1 pp).1.map
                (fun _ => false),
              (Epson.write_eeprom_na P rkey (some k) check_read wl.2.1 pp).2.1,
              rd.2.2 ++ wl.2.2 ++
                (Epson.write_eeprom_na P rkey (some k) check_read wl.2.1 pp).2.2)
            = (some false, wl2.2.1, rd.2.2 ++ wl.2.2 ++ wl2.2.2)
        rw [hna2, hres2]
        rfl
      refine ⟨?_, hmap, ⟨false, by rw [hout], hres⟩, ?_, ?_⟩
      · rw [hout]
        show (rd.2.2 ++ wl.2.2 ++ wl2.2.2).take pairs.length = _
        rw [List.append_assoc, List.take_left' hlen, htr]
      · intro h
        rw [hout] at h
        exact absurd (Option.some.inj h) (by simp)
      · intro _
        refine ⟨pp, hpp, hppmap, ?_⟩
        rw [hout]
        show wrPairs (rd.2.2 ++ wl.2.2 ++ wl2.2.2) = pairs ++ pp
        rw [wrPairs_append, wrPairs_append, htr, wrPairs_rd_map, hwr, hwr2]
        rfl

/-- Witness for C1: a printer that acknowledges writes but always reads back
`0x42` fails the readback for value 1 at address 5 and rolls back. -/
theorem c1_write_eeprom_atomic_witness :
    ((Epson.write_eeprom stuckPrinter 0 (some [0x41]) true true () [(5, 1)]).2.2.take
        ([(5, 1)] : List (Nat × Nat)).length
      = (Epson.read_eeprom stuckPrinter 0 ()
          (([(5, 1)] : List (Nat × Nat)).map Prod.fst)).1.map
          (fun x => Ev.rd x.1 x.2))
    ∧ ((Epson.read_eeprom stuckPrinter 0 ()
          (([(5, 1)] : List (Nat × Nat)).map Prod.fst)).1.map Prod.fst
        = ([(5, 1)] : List (Nat × Nat)).map Prod.fst)
    ∧ (∃ res,
        (Epson.write_eeprom stuckPrinter 0 (some [0x41]) true true () [(5, 1)]).1
          = some res
        ∧ (Epson.write_list stuckPrinter 0 true
            (Epson.read_eeprom stuckPrinter 0 ()
              (([(5, 1)] : List (Nat × Nat)).map Prod.fst)).2.1 [(5, 1)]).1
          = some res)
    ∧ ((Epson.write_eeprom stuckPrinter 0 (some [0x41]) true true () [(5, 1)]).1
          = some true →
        wrPairs (Epson.write_eeprom stuckPrinter 0 (some [0x41]) true true ()
            [(5, 1)]).2.2
          = [(5, 1)])
    ∧ ((Epson.write_eeprom stuckPrinter 0 (some [0x41]) true true () [(5, 1)]).1
          = some false →
        ∃ pp,
          unwrapPrev (Epson.read_eeprom stuckPrinter 0 ()
              (([(5, 1)] : List (Nat × Nat)).map Prod.fst)).1 = some pp
          ∧ pp.map (fun x => (x.1, some x.2))
              = (Epson.read_eeprom stuckPrinter 0 ()
                  (([(5, 1)] : List (Nat × Nat)).map Prod.fst)).1
          ∧ wrPairs (Epson.write_eeprom stuckPrinter 0 (some [0x41]) true true ()
                [(5, 1)]).2.2
            = [(5, 1)] ++ pp) :=
  c1_write_eeprom_atomic stuckPrinter 0 [0x41] true () [(5, 1)] (by decide)
    (by decide)

/-- When some entry of the dict already has key `k`, `dictInsert` keeps the
key list unchanged. -/
theorem dictInsert_keys_of_any (av : List (Nat × Nat)) (k v : Nat)
    (hany : av.any (fun q => q.1 = k) = true) :
    (dictInsert av k v).map Prod.fst = av.map Prod.fst := by
  unfold dictInsert
  rw [if_pos hany, List.map_map]
  apply List.map_congr_left
  intro p hp
  by_cases hpk : p.1 = k
  · simp [hpk]
  · simp [hpk]

/-- Keys after `dictInsert`: the old keys plus `k`. -/
theorem dictInsert_key_mem (av : List (Nat × Nat)) (k v a : Nat) :
    a ∈ (dictInsert av k v).map Prod.fst ↔ a ∈ av.map Prod.fst ∨ a = k := by
  by_cases hany : av.any (fun q => q.1 = k) = true
  · rw [dictInsert_keys_of_any av k v hany]
    have hk : k ∈ av.map Prod.fst := by
      rcases List.any_eq_true.1 hany with ⟨p, hp, hpk⟩
      have hpk' : p.1 = k := by simpa using hpk
      have := List.mem_map_of_mem Prod.fst hp
      rwa [hpk'] at this
    constructor
    · exact Or.inl
    · rintro (h | rfl)
      · exact h
      · exact hk
  · unfold dictInsert
    rw [if_neg hany, List.map_append]
    simp

/-- Every pair of `dictInsert av k v` comes from `av` or is `(k, v)`. -/
theorem dictInsert_mem_src (av : List (Nat × Nat)) (k v : Nat) (p : Nat × Nat)
    (h : p ∈ dictInsert av k v) : p ∈ av ∨ p = (k, v) := by
  unfold dictInsert at h
  by_cases hany : av.any (fun q => q.1 = k) = true
  · rw [if_pos hany] at h
    rcases List.mem_map.1 h with ⟨q, hq, he⟩
    by_cases hqk : q.1 = k
    · rw [if_pos hqk] at he
      exact Or.inr he.symm
    · rw [if_neg hqk] at he
      exact Or.inl (he ▸ hq)
  · rw [if_neg hany] at h
    rcases List.mem_append.1 h with h' | h'
    · exact Or.inl h'
    · exact Or.inr (by simpa using h')

/-- `dictInsert` preserves key uniqueness. -/
theorem dictInsert_nodup (av : List (Nat × Nat)) (k v : Nat)
    (h : (av.map Prod.fst).Nodup) :
    ((dictInsert av k v).map Prod.fst).Nodup := by
  by_cases hany : av.any (fun q => q.1 = k) = true
  · rwa [dictInsert_keys_of_any av k v hany]
  · unfold dictInsert
    rw [if_neg hany, List.map_append]
    refine List.Nodup.append h (List.nodup_singleton k) ?_
    intro a ha hk
    have ha' : a = k := by simpa using hk
    subst ha'
    rcases List.mem_map.1 ha with ⟨q, hq, hqa⟩
    have : av.any (fun q => q.1 = a) = true :=
      List.any_eq_true.2 ⟨q, hq, by simpa using hqa⟩
    exact hany this

/-- Every pair of `dictUpdate av ps` comes from `av` or from `ps`. -/
theorem dictUpdate_mem_src (ps : List (Nat × Nat)) :
    ∀ av p, p ∈ dictUpdate av ps → p ∈ av ∨ p ∈ ps := by
  induction ps with
  | nil => exact fun av p h => Or.inl h
  | cons q qs ih =>
      intro av p h
      have h2 : p ∈ dictUpdate (dictInsert av q.1 q.2) qs := h
      rcases ih _ p h2 with h' | h'
      · rcases dictInsert_mem_src av q.1 q.2 p h' with h'' | h''
        · exact Or.inl h''
        · refine Or.inr ?_
          rw [h'']
          exact List.mem_cons_self _ _
      · exact Or.inr (List.mem_cons_of_mem q h')

/-- Keys after `dictUpdate`: the old keys plus the keys of `ps`. -/
theorem dictUpdate_keys (ps : List (Nat × Nat)) :
    ∀ av a, a ∈ (dictUpdate av ps).map Prod.fst ↔
      a ∈ av.map Prod.fst ∨ a ∈ ps.map Prod.fst := by
  induction ps with
  | nil => intro av a; simp [dictUpdate]
  | cons q qs ih =>
      intro av a
      have h0 : dictUpdate av (q :: qs) = dictUpdate (dictInsert av q.1 q.2) qs :=
        rfl
      rw [h0, ih, dictInsert_key_mem, List.map_cons]
      constructor
      · rintro ((h | h) | h)
        · exact Or.inl h
        · exact Or.inr (h ▸ List.mem_cons_self _ _)
        · exact Or.inr (List.mem_cons_of_mem _ h)
      · rintro (h | h)
        · exact Or.inl (Or.inl h)
        · rcases List.mem_cons.1 h with h' | h'
          · exact Or.inl (Or.inr h')
          · exact Or.inr h'

/-- `dictUpdate` preserves key uniqueness. -/
theorem dictUpdate_nodup (ps : List (Nat × Nat)) :
    ∀ av, (av.map Prod.fst).Nodup → ((dictUpdate av ps).map Prod.fst).Nodup := by
  induction ps with
  | nil => exact fun av h => h
  | cons q qs ih => exact fun av h => ih _ (dictInsert_nodup av q.1 q.2 h)

/-- Every pair merged by the `get_mem` loop comes from the accumulator or from
a matching entry's `zip(addr, reset)`. -/
theorem get_mem_fold_mem (pat : String) (mem : List MemEntry) :
    ∀ acc p, p ∈ Spec.get_mem_fold pat acc mem →
      p ∈ acc ∨ ∃ e ∈ mem, descMatches pat e.desc = true ∧ p ∈ e.pairs := by
  induction mem with
  | nil => exact fun acc p h => Or.inl h
  | cons e rest ih =>
      intro acc p h
      by_cases hm : descMatches pat e.desc = true
      · have h0 : Spec.get_mem_fold pat acc (e :: rest)
            = Spec.get_mem_fold pat (dictUpdate acc e.pairs) rest := by
          simp [Spec.get_mem_fold, hm]
        rw [h0] at h
        rcases ih _ p h with h' | ⟨e', he', hm', hp'⟩
        · rcases dictUpdate_mem_src e.pairs acc p h' with h'' | h''
          · exact Or.inl h''
          · exact Or.inr ⟨e, List.mem_cons_self e rest, hm, h''⟩
        · exact Or.inr ⟨e', List.mem_cons_of_mem e he', hm', hp'⟩
      · have h0 : Spec.get_mem_fold pat acc (e :: rest)
            = Spec.get_mem_fold pat acc rest := by
          simp [Spec.get_mem_fold, hm]
        rw [h0] at h
        rcases ih acc p h with h' | ⟨e', he', hm', hp'⟩
        · exact Or.inl h'
        · exact Or.inr ⟨e', List.mem_cons_of_mem e he', hm', hp'⟩

/-- Keys accumulated by the `get_mem` loop: the accumulator's keys plus every
key of every matching entry. -/
theorem get_mem_fold_keys (pat : String) (mem : List MemEntry) :
    ∀ acc a, a ∈ (Spec.get_mem_fold pat acc mem).map Prod.fst ↔
      a ∈ acc.map Prod.fst ∨
      ∃ e ∈ mem, descMatches pat e.desc = true ∧ a ∈ e.pairs.map Prod.fst := by
  induction mem with
  | nil =>
      intro acc a
      simp [Spec.get_mem_fold]
  | cons e rest ih =>
      intro acc a
      by_cases hm : descMatches pat e.desc = true
      · have h0 : Spec.get_mem_fold pat acc (e :: rest)
            = Spec.get_mem_fold pat (dictUpdate acc e.pairs) rest := by
          simp [Spec.get_mem_fold, hm]
        rw [h0, ih, dictUpdate_keys]
        constructor
        · rintro ((h | h) | ⟨e', he', hm', ha'⟩)
          · exact Or.inl h
          · exact Or.inr ⟨e, List.mem_cons_self e rest, hm, h⟩
          · exact Or.inr ⟨e', List.mem_cons_of_mem e he', hm', ha'⟩
        · rintro (h | ⟨e', he', hm', ha'⟩)
          · exact Or.inl (Or.inl h)
          · rcases List.mem_cons.1 he' with h' | h'
            · exact Or.inl (Or.inr (by rw [← h']; exact ha'))
            · exact Or.inr ⟨e', h', hm', ha'⟩
      · have h0 : Spec.get_mem_fold pat acc (e :: rest)
            = Spec.get_mem_fold pat acc rest := by
          simp [Spec.get_mem_fold, hm]
        rw [h0, ih]
        constructor
        · rintro (h | ⟨e', he', hm', ha'⟩)
          · exact Or.inl h
          · exact Or.inr ⟨e', List.mem_cons_of_mem e he', hm', ha'⟩
        · rintro (h | ⟨e', he', hm', ha'⟩)
          · exact Or.inl h
          · rcases List.mem_cons.1 he' with h' | h'
            · exact absurd (h' ▸ hm') hm
            · exact Or.inr ⟨e', h', hm', ha'⟩

/-- The `get_mem` loop preserves key uniqueness. -/
theorem get_mem_fold_nodup (pat : String) (mem : List MemEntry) :
    ∀ acc, (acc.map Prod.fst).Nodup →
      ((Spec.get_mem_fold pat acc mem).map Prod.fst).Nodup := by
  induction mem with
  | nil => exact fun acc h => h
  | cons e rest ih =>
      intro acc h
      by_cases hm : descMatches pat e.desc = true
      · have h0 : Spec.get_mem_fold pat acc (e :: rest)
            = Spec.get_mem_fold pat (dictUpdate acc e.pairs) rest := by
          simp [Spec.get_mem_fold, hm]
        rw [h0]
        exact ih _ (dictUpdate_nodup e.pairs acc h)
      · have h0 : Spec.get_mem_fold pat acc (e :: rest)
            = Spec.get_mem_fold pat acc rest := by
          simp [Spec.get_mem_fold, hm]
        rw [h0]
        exact ih acc h

/-- C7 counterexample: on a `mem` table with a matching entry carrying only a
`min` list and another whose `reset` list is shorter than its `addr` list, the
aggregate merge pairs address 1 with 0 (not with its `min` value 5) and does
not cover address 3 at all — refuting min-defaulting and full coverage as the
claim states them. -/
theorem c7_aggregate_reset_counterexample :
    Spec.get_mem memCx "waste counter" = some [(1, 0), (2, 7)]
    ∧ (1, 5) ∉ (Spec.get_mem memCx "waste counter").getD []
    ∧ ((Spec.get_mem memCx "waste counter").getD []).all
        (fun p => p.1 != 3) = true := by
  refine ⟨by decide, by decide, by decide⟩

/-- C7 (amended): the synthesized aggregate reset collects every `mem` entry
whose `desc` contains the pattern case-insensitively as a substring and
performs one atomic write over the merged dict of each matching entry's
`zip(addr, reset)`, where an absent per-entry `reset` defaults to all zeros
(`min` is not consulted and `zip` drops addresses beyond a shorter `reset`);
duplicate addresses are removed, every merged pair stems from a matching
entry, and every address zipped by a matching entry is covered. -/
theorem c7_aggregate_reset_merge {σ : Type} (P : Printer σ) (rkey : Nat)
    (wkey : Option (List Nat)) (check_read : Bool) (mem : List MemEntry)
    (pat : String) (av : List (Nat × Nat)) (s : σ)
    (hav : Spec.get_mem mem pat = some av) :
    (av.map Prod.fst).Nodup
    ∧ (∀ p ∈ av, ∃ e ∈ mem, descMatches pat e.desc = true ∧ p ∈ e.pairs)
    ∧ (∀ e ∈ mem, descMatches pat e.desc = true →
        ∀ a ∈ e.pairs.map Prod.fst, a ∈ av.map Prod.fst)
    ∧ Epson.aggregate_reset P rkey wkey check_read mem pat s =
        some (Epson.write_eeprom P rkey wkey check_read true s av) := by
  have hav' : av = Spec.get_mem_fold pat [] mem := by
    simp only [Spec.get_mem] at hav
    by_cases he : (Spec.get_mem_fold pat [] mem).isEmpty = true
    · rw [if_pos he] at hav
      exact nomatch hav
    · rw [if_neg he] at hav
      exact (Option.some.inj hav).symm
  refine ⟨?_, ?_, ?_, ?_⟩
  · rw [hav']
    exact get_mem_fold_nodup pat mem [] (by simp)
  · intro p hp
    rw [hav'] at hp
    rcases get_mem_fold_mem pat mem [] p hp with h | h
    · exact absurd h (List.not_mem_nil p)
    · exact h
  · intro e he hm a ha
    rw [hav']
    exact (get_mem_fold_keys pat mem [] a).2 (Or.inr ⟨e, he, hm, ha⟩)
  · simp [Epson.aggregate_reset, hav]

/-- Witness for C7 at the concrete `mem` table. -/
theorem c7_aggregate_reset_merge_witness :
    (([(1, 0), (2, 7)] : List (Nat × Nat)).map Prod.fst).Nodup
    ∧ (∀ p ∈ ([(1, 0), (2, 7)] : List (Nat × Nat)),
        ∃ e ∈ memCx, descMatches "waste counter" e.desc = true ∧ p ∈ e.pairs)
    ∧ (∀ e ∈ memCx, descMatches "waste counter" e.desc = true →
        ∀ a ∈ e.pairs.map Prod.fst,
          a ∈ ([(1, 0), (2, 7)] : List (Nat × Nat)).map Prod.fst)
    ∧ Epson.aggregate_reset okPrinter 0 (some [0x41]) true memCx
        "waste counter" ()
        = some (Epson.write_eeprom okPrinter 0 (some [0x41]) true true ()
            [(1, 0), (2, 7)]) :=
  c7_aggregate_reset_merge okPrinter 0 (some [0x41]) true memCx
    "waste counter" [(1, 0), (2, 7)] () (by decide)

/-- Witness for C6: address 5, value `0x0F`, mismatching echo 6. -/
theorem c6_read_eeprom_reply_witness :
    parse_ee_reply 2 5 (mkEEReply 5 0x0F) = some 0x0F
    ∧ parse_ee_reply 2 5 (mkEEReply 6 0x0F) = none
    ∧ read_eeprom_parse 2 [5]
        [[0x40, 0x42, 0x44, 0x43, 0x20, 0x50, 0x53, 0x20,
          0x45, 0x45, 0x3A, 0x30, 0x30, 0x30, 0x35, 0x30, 0x46, 0x3B]]
        = [(5, some 0x0F)]
    ∧ read_eeprom_parse 2 [5]
        [[0x40, 0x42, 0x44, 0x43, 0x20, 0x50, 0x53, 0x20,
          0x45, 0x45, 0x3A, 0x30, 0x30, 0x30, 0x36, 0x30, 0x46, 0x3B]]
        = [(5, none)] :=
  c6_read_eeprom_reply 5 6 0x0F (by decide) (by decide) (by decide) (by decide)

end Reink
